import Mathlib

/-!
Verification of the layered configuration resolution engine
(`config-override`, `src/index.js`) against its specification.

The JavaScript source is shallowly embedded: JS values become the inductive
type `JVal`, in-place object mutation becomes functional update (the mutated
sub-object is written back into its parent, which is equivalent because every
value tree produced by the loader is a tree, without internal sharing), and
statements that can throw (`'use strict'` is in force in the source file, so
assigning a property to a primitive raises a `TypeError`) return
`Except Unit`.  Objects and arrays are modelled as association lists from
property-key strings to values, in insertion order, exactly as the engine
observes them; array `length` bookkeeping and prototype-chain lookups are not
modelled (no code path exercised by the claims reads an inherited property).
-/

/-- A JavaScript value as the engine manipulates it.  Arrays are kept as
property lists keyed by the decimal string of the index, which is how the
source accesses them (`ref[key]` after `+key` coercion). -/
inductive JVal : Type where
  | vNum : Int → JVal
  | vStr : String → JVal
  | vBool : Bool → JVal
  | vNull : JVal
  | vUndef : JVal
  | vObj : List (String × JVal) → JVal
  | vArr : List (String × JVal) → JVal

open JVal

/-- First-match association-list lookup (JS own-property read on a plain
object: property keys are unique in any object JS can build, and insertion
order is preserved). -/
def lookupA : List (String × JVal) → String → Option JVal
  | [], _ => none
  | (k0, v0) :: rest, k => if k0 = k then some v0 else lookupA rest k

/-- Property update: replace the first binding of `k` in place (JS keeps the
original insertion position of an existing key), append a new binding
otherwise. -/
def assocSet : List (String × JVal) → String → JVal → List (String × JVal)
  | [], k, v => [(k, v)]
  | (k0, v0) :: rest, k, v =>
      if k0 = k then (k0, v) :: rest else (k0, v0) :: assocSet rest k v

/-- `typeof x === 'undefined'` for a property-read result. -/
def isUndefV : JVal → Bool
  | vUndef => true
  | _ => false

def isContainer : JVal → Bool
  | vObj _ => true
  | vArr _ => true
  | _ => false

/-- JS falsiness, used for `if (!obj) obj = {}` and `cli[key] || {}`. -/
def jsFalsy : JVal → Bool
  | vNull => true
  | vUndef => true
  | vBool b => !b
  | vNum n => n = 0
  | vStr s => s = ""
  | _ => false

def digitVal (c : Char) : Nat := c.toNat - 48

def digitsToNat (l : List Char) : Nat :=
  l.foldl (fun a c => 10 * a + digitVal c) 0

/-- `^\d+$` of the source (`rxNumber`). -/
def isAllDigits (l : List Char) : Bool :=
  !l.isEmpty && l.all Char.isDigit

/-- A path segment after `accessor.split('.').map(...)`: segments matching
`^\d+$` are converted to numbers (as `Nat`; digit strings long enough to
lose precision as JS floats are outside the modelled range), the rest stay
strings. -/
inductive JKey : Type where
  | str : String → JKey
  | num : Nat → JKey

def keyToString : JKey → String
  | .str s => s
  | .num n => toString n

/-- `value.split(sep)` on character lists (JS `String.prototype.split` with a
single-character separator; `"".split(sep)` is `[""]`). -/
def splitChar (sep : Char) : List Char → List (List Char)
  | [] => [[]]
  | c :: cs =>
      if c = sep then [] :: splitChar sep cs
      else
        match splitChar sep cs with
        | [] => [[c]]
        | seg :: rest => (c :: seg) :: rest

def parseSeg (l : List Char) : JKey :=
  if isAllDigits l then .num (digitsToNat l) else .str (String.mk l)

/-- `accessor.split( '.' ).map( key => rxNumber.test( key ) ? +key : key )`
(src/index.js line 51; the split character is hard-coded to `'.'`). -/
def splitKeys (acc : String) : List JKey :=
  (splitChar '.' acc.data).map parseSeg

/-- Own-property read of a string primitive: character indices and `length`
(the only own properties a JS string has).  Keys arriving here are canonical
(numeric segments went through `+key` and back to a decimal string). -/
def strProp (s : String) (k : String) : Option JVal :=
  if k = "length" then some (vNum s.data.length)
  else if isAllDigits k.data then
    match s.data.get? (digitsToNat k.data) with
    | some c => some (vStr (String.mk [c]))
    | none => none
  else none

/-- `ref[key]` as an rvalue.  Reading a property of `null`/`undefined`
throws; primitives other than strings have no own properties (the prototype
chain is not modelled). -/
def getPropE : JVal → String → Except Unit (Option JVal)
  | vNull, _ => .error ()
  | vUndef, _ => .error ()
  | vObj ps, k => .ok (lookupA ps k)
  | vArr ps, k => .ok (lookupA ps k)
  | vStr s, k => .ok (strProp s k)
  | _, _ => .ok none

/-- `ref[key] = v`.  The source runs under `'use strict'`, so assigning a
property of a primitive (or of `null`/`undefined`) throws a `TypeError`. -/
def setPropE : JVal → String → JVal → Except Unit JVal
  | vObj ps, k, v => .ok (vObj (assocSet ps k v))
  | vArr ps, k, v => .ok (vArr (assocSet ps k v))
  | _, _, _ => .error ()

/-- `typeof ref[key] === 'undefined'` (absent own property, or a stored
`undefined`). -/
def isUndefLike : Option JVal → Bool
  | none => true
  | some c => isUndefV c

/-- The container `_getset` creates for a missing node:
`typeof keys[index+1] === 'number' ? [] : {}`. -/
def freshFor : JKey → JVal
  | .num _ => vArr []
  | .str _ => vObj []

/-- The three-argument (write) form of `_getset`'s `keys.forEach` loop
(src/index.js lines 55-64).  For the last key the creation of a fresh
container is immediately overwritten by `value`, so the net effect is a
single property write; for earlier keys a missing (or stored-`undefined`)
node is replaced by a fresh container chosen by the shape of the next key.
The recursive result is written back into the parent, which models the
in-place mutation of the aliased child object. -/
def gsWrite : JVal → List JKey → JVal → Except Unit JVal
  | t, [], _ => .ok t
  | t, [k], v => setPropE t (keyToString k) v
  | t, k :: k2 :: ks, v =>
      match getPropE t (keyToString k) with
      | .error e => .error e
      | .ok cur =>
          if isUndefLike cur then
            match setPropE t (keyToString k) (freshFor k2) with
            | .error e => .error e
            | .ok t1 =>
                match gsWrite (freshFor k2) (k2 :: ks) v with
                | .error e => .error e
                | .ok child' => setPropE t1 (keyToString k) child'
          else
            match gsWrite (cur.getD vUndef) (k2 :: ks) v with
            | .error e => .error e
            | .ok child' => setPropE t (keyToString k) child'

/-- The two-argument (read) form of `_getset`'s loop: it also repairs the
tree, inserting a fresh container at every missing node (including the last
one), and returns the final `ref`.  The mutated child is written back into
the parent only when it is a container: a successful recursive read beneath
a primitive never mutates anything (every property write on a primitive
throws), and JS performs no assignment at this level in that case. -/
def gsRead : JVal → List JKey → Except Unit (JVal × JVal)
  | t, [] => .ok (t, t)
  | t, [k] =>
      match getPropE t (keyToString k) with
      | .error e => .error e
      | .ok cur =>
          if isUndefLike cur then
            match setPropE t (keyToString k) (vObj []) with
            | .error e => .error e
            | .ok t1 => .ok (t1, vObj [])
          else .ok (t, cur.getD vUndef)
  | t, k :: k2 :: ks =>
      match getPropE t (keyToString k) with
      | .error e => .error e
      | .ok cur =>
          if isUndefLike cur then
            match setPropE t (keyToString k) (freshFor k2) with
            | .error e => .error e
            | .ok t1 =>
                match gsRead (freshFor k2) (k2 :: ks) with
                | .error e => .error e
                | .ok r =>
                    match setPropE t1 (keyToString k) r.1 with
                    | .error e => .error e
                    | .ok t2 => .ok (t2, r.2)
          else
            match gsRead (cur.getD vUndef) (k2 :: ks) with
            | .error e => .error e
            | .ok r =>
                if isContainer r.1 then
                  match setPropE t (keyToString k) r.1 with
                  | .error e => .error e
                  | .ok t2 => .ok (t2, r.2)
                else .ok (t, r.2)

def baseObj (t : JVal) : JVal := if jsFalsy t then vObj [] else t

/-- `_getset( obj, accessor, value )` as seen by its callers: the updated
tree (`!accessor` leaves the tree untouched and `!obj` substitutes a fresh
`{}`, matching lines 46-48). -/
def getset_write (t : JVal) (acc : String) (v : JVal) : Except Unit JVal :=
  if acc = "" then .ok t else gsWrite (baseObj t) (splitKeys acc) v

/-- `_getset( obj, accessor )`: the (possibly repaired) tree together with
the value read. -/
def getset_read (t : JVal) (acc : String) : Except Unit (JVal × JVal) :=
  if acc = "" then .ok (t, vUndef) else gsRead (baseObj t) (splitKeys acc)

example : gsWrite (vObj []) (splitKeys "a.b.c") (vNum 7) =
    .ok (vObj [("a", vObj [("b", vObj [("c", vNum 7)])])]) := rfl

example : gsWrite (vObj [("a", vNum 5)]) (splitKeys "a.b.c") (vNum 7) =
    .error () := rfl

example : gsRead (vObj []) (splitKeys "a.0") =
    .ok (vObj [("a", vArr [("0", vObj [])])], vObj []) := rfl

/-! ## String helpers (JS semantics) -/

/-- `str.toLowerCase()` (ASCII range, which is all the engine ever feeds it). -/
def jsLower (s : String) : String := String.mk (s.data.map Char.toLower)

/-- `value.trim()`. -/
def trimL (l : List Char) : List Char :=
  ((l.dropWhile Char.isWhitespace).reverse.dropWhile Char.isWhitespace).reverse

def hasPref : List Char → List Char → Bool
  | [], _ => true
  | _ :: _, [] => false
  | p :: ps, c :: cs => p = c && hasPref ps cs

/-- Fuelled global replacement, `key.replace( new RegExp( delim, 'g' ), '.' )`:
left-to-right, non-overlapping.  The fuel (list length + 1) suffices for every
non-empty pattern; the engine's delimiter is a non-empty literal string. -/
def replAllFuel (pat rep : List Char) : Nat → List Char → List Char
  | 0, l => l
  | fuel + 1, l =>
      match l with
      | [] => []
      | c :: cs =>
          if hasPref pat (c :: cs) then rep ++ replAllFuel pat rep fuel ((c :: cs).drop pat.length)
          else c :: replAllFuel pat rep fuel cs

def replAll (pat rep l : List Char) : List Char := replAllFuel pat rep (l.length + 1) l

/-- First-occurrence replacement: `appName.replace( '-', sub )` with a plain
string pattern replaces only the first hyphen. -/
def replFirstHyphen (sub : List Char) : List Char → List Char
  | [] => []
  | c :: cs => if c = '-' then sub ++ cs else c :: replFirstHyphen sub cs

/-- `this.keyAppName = lc( appName.replace( '-', this.opts.hyphenSubstitute ) )`
(src/index.js line 102). -/
def keyAppNameOf (appName sub : String) : String :=
  jsLower (String.mk (replFirstHyphen sub.data appName.data))

/-! ## Environment extractor (`parse_env`, src/index.js lines 174-202) -/

/-- Raw value coercion at the `_getset` call (line 198): all-digits becomes a
number, `"true"`/`"false"` become booleans, anything else stays a string; a
missing value (`split` produced no second field) is `undefined`. -/
def coerceRaw : Option (List Char) → JVal
  | none => JVal.vUndef
  | some l =>
      if isAllDigits l then JVal.vNum (digitsToNat l)
      else if l = "true".data then JVal.vBool true
      else if l = "false".data then JVal.vBool false
      else JVal.vStr (String.mk l)

/-- Delimiter-to-dot rewriting plus the accessor write shared by both
`parse_env` branches (lines 196-198). -/
def envApply (delim : String) (t : JVal) (k1 : List Char) (rawv : Option (List Char)) :
    Except Unit JVal :=
  let k2 := if delim = "." then k1 else replAll delim.data ['.'] k1
  getset_write t (String.mk k2) (coerceRaw rawv)

/-- One step of the `reduce` in `parse_env`: non-string values are skipped;
a name equal to the namespace splits its trimmed value on every `'='` and
destructures the first two fields; a name starting with namespace+delimiter
strips that prefix from the lower-cased name; anything else is ignored. -/
def envStep (keyname delim : String) (t : JVal) (kv : String × JVal) : Except Unit JVal :=
  match kv.2 with
  | JVal.vStr raw =>
      let key0 := jsLower kv.1
      if key0 = keyname then
        let parts := splitChar '=' (trimL raw.data)
        envApply delim t (parts.headD []) (parts.get? 1)
      else if hasPref (keyname ++ delim).data key0.data then
        envApply delim t (key0.data.drop (keyname.length + 1)) (some (trimL raw.data))
      else .ok t
  | _ => .ok t

/-- `parse_env( obj, delim )`: fold the environment entries (in their given
order) into one tree.  A conflicting write (container needed where a scalar
sits) propagates as the thrown `TypeError` would. -/
def parse_env (keyname delim : String) (envMap : List (String × JVal)) : Except Unit JVal :=
  envMap.foldlM (envStep keyname delim) (JVal.vObj [])

example : parse_env "app" "_" [("APP_A_Q", JVal.vStr "2")] =
    .ok (JVal.vObj [("a", JVal.vObj [("q", JVal.vNum 2)])]) := rfl

example : parse_env "app" "_" [("APP", JVal.vStr "demo.host=1.2.3.4")] =
    .ok (JVal.vObj [("demo", JVal.vObj [("host", JVal.vStr "1.2.3.4")])]) := rfl

/-! ## Format parser registry (`parsers`, `parse`, and the inline copy in
`add_config_file`, src/index.js lines 35-42, 247-265, 291-305) -/

inductive CFormat : Type where
  | ini | json | json5 | yaml
  deriving DecidableEq

/-- The keys of the `parsers` table; `conf` shares the INI parser and `yml`
the YAML parser. -/
def knownFormat : String → Option CFormat
  | "ini" => some .ini
  | "conf" => some .ini
  | "json5" => some .json5
  | "json" => some .json
  | "yaml" => some .yaml
  | "yml" => some .yaml
  | _ => none

def lastIdxOf (c : Char) (l : List Char) : Option Nat :=
  (l.foldl (fun st ch => (st.1 + 1, if ch = c then some st.1 else st.2))
    ((0 : Nat), (none : Option Nat))).2

/-- Extension-based parser selection: `filename.lastIndexOf( '.' )` must be
positive, and the lower-cased suffix must name a registered parser. -/
def extFormat (filename : String) : Option CFormat :=
  match lastIdxOf '.' filename.data with
  | some i =>
      if 0 < i then knownFormat (jsLower (String.mk (filename.data.drop (i + 1))))
      else none
  | none => none

def braceChar : Char := Char.ofNat 123

/-- `[\s\n]*\{` from one position: optional whitespace (newlines included),
then an opening brace. -/
def wsStarBrace : List Char → Bool
  | [] => false
  | c :: cs => c = braceChar || (c.isWhitespace && wsStarBrace cs)

/-- The same pattern attempted after each newline (the `m` flag anchors `^`
at every line start). -/
def sniffAfterNl : List Char → Bool
  | [] => false
  | c :: cs => (c = '\n' && wsStarBrace cs) || sniffAfterNl cs

/-- `/^[\s\n]*\{/m.test( contents )`: the pattern may match at the start of
the content or at the start of any later line. -/
def sniffJson (s : String) : Bool := wsStarBrace s.data || sniffAfterNl s.data

/-- Parser selection as performed by `parse` and (identically) inline in
`add_config_file`: extension first, content sniff as fallback, INI as the
default. -/
def chooseFormat (filename contents : String) : CFormat :=
  match extFormat filename with
  | some f => f
  | none => if sniffJson contents then .json else .ini

/-- The external format parsers (JSON, JSON5, INI, YAML are collaborators:
`bytes -> tree` or failure; a thrown parse error surfaces as `none`). -/
structure Parsers where
  iniP : String → Option JVal
  jsonP : String → Option JVal
  json5P : String → Option JVal
  yamlP : String → Option JVal

def runParse (P : Parsers) (fullname contents : String) : Option JVal :=
  match chooseFormat fullname contents with
  | .ini => P.iniP contents
  | .json => P.jsonP contents
  | .json5 => P.json5P contents
  | .yaml => P.yamlP contents

/-! ## Filesystem model and file locator -/

/-- A filesystem path: absolute or relative, directory components innermost
first (so `dirname` is `tail` and the filesystem root is `[]`), plus the
file name.  `file + extension` appends to the name.  Two paths are the same
JS string exactly when they are equal as `JPath` values (components are
slash-free and non-empty). -/
structure JPath where
  abs : Bool
  rdir : List String
  name : String
  deriving DecidableEq

/-- The string the path denotes (used for extension lookup, which the source
applies to the full joined path). -/
def renderPath (p : JPath) : String :=
  if p.abs then
    "/" ++ String.intercalate "/" p.rdir.reverse ++ (if p.rdir.isEmpty then "" else "/") ++ p.name
  else
    String.intercalate "/" (p.rdir.reverse ++ [p.name])

/-- The filesystem: the finite set of existing files with their contents
(`statSync` succeeds exactly on these, `readFileSync` returns the contents).
Directories are not listed: in JS a directory also satisfies the `exists`
probe but its `readFileSync` throws and the candidate is skipped, which is
observably the same skip the model performs at the existence check. -/
def fsRead : List (JPath × String) → JPath → Option String
  | [], _ => none
  | (q, c) :: rest, p => if q = p then some c else fsRead rest p

def fexists (fs : List (JPath × String)) (p : JPath) : Bool := (fsRead fs p).isSome

def pathMem (p : JPath) : List JPath → Bool
  | [] => false
  | q :: rest => if q = p then true else pathMem p rest

/-- `_find( start, rel )` (src/index.js lines 351-359): probe
`join(start, rel)`, recording it in the diagnostics; succeed when it exists
and is not among the already-loaded entries; otherwise recurse into the
parent until `dirname(start) === start` (the root), where the result is
`null`. -/
def findUp (fs : List (JPath × String)) (loaded : List JPath) (rel : String) :
    List String → List JPath → Option JPath × List JPath
  | start, diag =>
      let p : JPath := ⟨true, start, rel⟩
      let d := diag ++ [p]
      if fexists fs p && !pathMem p loaded then (some p, d)
      else
        match start with
        | [] => (none, d)
        | _ :: parent => findUp fs loaded rel parent d

/-- The chain of directories the upward search visits: the start directory,
its parents, and finally the root. -/
def upChain : List String → List (List String)
  | [] => [[]]
  | s :: rest => (s :: rest) :: upChain rest

/-! ## Source loader (`add_config_file`, `add_files`) -/

/-- The mutable loader state: parsed trees, the ledger of loaded *base*
names, the ledger of actually-consumed paths, and every probed path. -/
structure CState where
  configList : List JVal
  configFiles : List JPath
  cookedConfigFiles : List JPath
  diag : List JPath

def withExt (p : JPath) (x : String) : JPath := ⟨p.abs, p.rdir, p.name ++ x⟩

/-- The `for ( let filename of filesToCheck )` loop of `add_config_file`
(lines 280-314, POSIX path separator): resolve the candidate (via the upward
search when `findIt`, recording the probe directly otherwise), skip it when
missing or already present in `configFiles`, read and parse it, and on the
first success append the tree, the *base* name, and the resolved path, then
stop (`if ( !parsed ) continue` also skips a parser that returned a falsy
value). -/
def acfLoop (fs : List (JPath × String)) (P : Parsers) (cwd : List String)
    (file : JPath) (findIt : Bool) : List JPath → CState → CState
  | [], st => st
  | cand :: rest, st =>
      let probe := if findIt then findUp fs st.configFiles cand.name cwd st.diag
                   else (some cand, st.diag ++ [cand])
      let st1 : CState := { st with diag := probe.2 }
      match probe.1 with
      | none => acfLoop fs P cwd file findIt rest st1
      | some fn =>
          if !fexists fs fn || pathMem fn st1.configFiles then
            acfLoop fs P cwd file findIt rest st1
          else
            match fsRead fs fn with
            | none => acfLoop fs P cwd file findIt rest st1
            | some contents =>
                if contents = "" then acfLoop fs P cwd file findIt rest st1
                else
                  match runParse P (renderPath fn) contents with
                  | none => acfLoop fs P cwd file findIt rest st1
                  | some tree =>
                      if jsFalsy tree then acfLoop fs P cwd file findIt rest st1
                      else
                        { st1 with
                          configList := st1.configList ++ [tree],
                          configFiles := st1.configFiles ++ [file],
                          cookedConfigFiles := st1.cookedConfigFiles ++ [fn] }

/-- `add_config_file( file, findIt )`: bail out when the base name was
already recorded, otherwise try each extension variant in order. -/
def add_config_file (fs : List (JPath × String)) (P : Parsers) (exts : List String)
    (cwd : List String) (st : CState) (file : JPath) (findIt : Bool) : CState :=
  if pathMem file st.configFiles then st
  else acfLoop fs P cwd file findIt (exts.map (withExt file)) st

/-- `defaultOptions.extensions` (line 72; note the last entry has no dot). -/
def defaultExtensions : List String := ["", ".json", ".json5", ".ini", ".yml", ".yaml", "conf"]

def joinShape (rootR : List String) (subs : List String) (nm : String) : JPath :=
  ⟨true, subs.reverse ++ rootR, nm⟩

/-- `add_files()` (lines 320-342): `/etc` shapes on non-Windows, the six
shapes under the home directory (when it resolves) and the working
directory, then the upward search for the three bare names. -/
def add_files (fs : List (JPath × String)) (P : Parsers) (exts : List String)
    (isWin : Bool) (home : Option (List String)) (cwd : List String)
    (name : String) (st : CState) : CState :=
  let dotName := "." ++ name
  let dotRc := "." ++ name ++ "rc"
  let all : List (List String × String) :=
    [([".config", name], "config"), ([".config"], name), ([dotName], "config"),
     ([], dotName), ([], dotRc), ([], name)]
  let inEtc : List (List String × String) := [([name], "config"), ([], name ++ "rc"), ([], name)]
  let st1 :=
    if !isWin then
      (inEtc.map (fun s => joinShape ["etc"] s.1 s.2)).foldl
        (fun acc p => add_config_file fs P exts cwd acc p false) st
    else st
  let st2 :=
    match home with
    | some h =>
        ((all.map (fun s => joinShape h s.1 s.2)) ++ (all.map (fun s => joinShape cwd s.1 s.2))).foldl
          (fun acc p => add_config_file fs P exts cwd acc p false) st1
    | none => st1
  [dotRc, dotName, name].foldl
    (fun acc n => add_config_file fs P exts cwd acc ⟨false, [], n⟩ true) st2

/-! ## Resolution engine -/

def strPairs : Nat → List Char → List (String × JVal)
  | _, [] => []
  | i, c :: cs => (toString i, JVal.vStr (String.mk [c])) :: strPairs (i + 1) cs

/-- The own enumerable properties `Object.assign` copies from one source:
an object's or array's bindings, a string's indexed characters; primitives,
`null` and `undefined` contribute nothing. -/
def ownPairs : JVal → List (String × JVal)
  | JVal.vObj ps => ps
  | JVal.vArr ps => ps
  | JVal.vStr s => strPairs 0 s.data
  | _ => []

def ownLookup (t : JVal) (k : String) : Option JVal := lookupA (ownPairs t) k

/-- Top-level value of a key, `undefined` when absent (for stating results). -/
def jGet (t : JVal) (k : String) : JVal := (ownLookup t k).getD JVal.vUndef

def assignPairs (acc : List (String × JVal)) (ps : List (String × JVal)) :
    List (String × JVal) :=
  ps.foldl (fun a kv => assocSet a kv.1 kv.2) acc

/-- `Object.assign( {}, ...sources )`: fold every source's own pairs into a
fresh object, later sources overwriting earlier bindings key by key. -/
def mergeSources (srcs : List JVal) : JVal :=
  JVal.vObj (srcs.foldl (fun a s => assignPairs a (ownPairs s)) [])

def keyIn (k : String) : List (String × JVal) → Bool
  | [] => false
  | (k0, _) :: r => if k0 = k then true else keyIn k r

def keysND : List (String × JVal) → Bool
  | [] => true
  | (k0, _) :: r => !keyIn k0 r && keysND r

/-- No duplicate own-property keys — true of every value an actual JS
runtime can hold. -/
def nodupKeys (t : JVal) : Bool := keysND (ownPairs t)

/-- The engine state after construction (`Configuration`'s instance fields). -/
structure Configuration where
  appName : String
  keyAppName : String
  delimiter : String
  hyphenSubstitute : String
  extensions : List String
  defaults : JVal
  env : JVal
  argv : JVal
  overrides : JVal
  configList : List JVal
  configFiles : List JPath
  cookedConfigFiles : List JPath
  diag : List JPath
  merged : Option JVal

/-- `merge()` (line 158): `Object.assign( {}, this.defaults,
...this.configList, this.env, this.argv, this.overrides )`. -/
def Configuration.merge (c : Configuration) : JVal :=
  mergeSources (c.defaults :: (c.configList ++ [c.env, c.argv, c.overrides]))

/-- `get()` (line 150): the cached result when present (`null` invalidates),
otherwise a fresh fold. -/
def Configuration.get (c : Configuration) : JVal :=
  match c.merged with
  | some m => m
  | none => Configuration.merge c

/-- `set( key, value )` (lines 136-140): invalidate the cache and write into
the overrides tree through the path accessor. -/
def Configuration.set (c : Configuration) (k : String) (v : JVal) :
    Except Unit Configuration :=
  match getset_write c.overrides k v with
  | .error e => .error e
  | .ok o => .ok { c with overrides := o, merged := none }

/-- `this.defaults = typeof defaults === 'string' ? parsers.json5( defaults )
: defaults` (line 111; a JSON5 parse failure propagates as the thrown
exception would). -/
def defaultsParse (P : Parsers) : JVal → Except Unit JVal
  | JVal.vStr s =>
      match P.json5P s with
      | some d => .ok d
      | none => .error ()
  | d => .ok d

/-- The constructor (lines 84-122) for an explicitly supplied application
name, with the option values already extracted from `defaults._config` and
the process identity (platform, home, cwd, environment, parsed argv)
supplied as collaborator inputs. -/
def mkConfiguration (appName delim sub : String) (exts : List String)
    (defaultsArg : JVal) (envMap : List (String × JVal)) (cli : JVal)
    (fs : List (JPath × String)) (P : Parsers) (isWin : Bool)
    (home : Option (List String)) (cwd : List String) :
    Except Unit Configuration :=
  let kn := keyAppNameOf appName sub
  match parse_env kn delim envMap with
  | .error e => .error e
  | .ok env =>
      let argvRaw := (ownLookup cli kn).getD JVal.vUndef
      let argv := if jsFalsy argvRaw then JVal.vObj [] else argvRaw
      match defaultsParse P defaultsArg with
      | .error e => .error e
      | .ok defaults =>
          let st := add_files fs P exts isWin home cwd appName ⟨[], [], [], []⟩
          let c : Configuration :=
            { appName := appName, keyAppName := kn, delimiter := delim,
              hyphenSubstitute := sub, extensions := exts, defaults := defaults,
              env := env, argv := argv, overrides := JVal.vObj [],
              configList := st.configList, configFiles := st.configFiles,
              cookedConfigFiles := st.cookedConfigFiles, diag := st.diag,
              merged := none }
          .ok { c with merged := some (Configuration.merge c) }

/-! ## Path predicates used by the path-accessor theorems -/

def ownOpt : JVal → String → Option JVal
  | JVal.vObj ps, k => lookupA ps k
  | JVal.vArr ps, k => lookupA ps k
  | _, _ => none

/-- Every node that already exists along the accessor path is a container
(object or array) — the regime in which `_getset` cannot throw. -/
def containersAlong : JVal → List JKey → Bool
  | _, [] => true
  | t, [_] => isContainer t
  | t, k :: k2 :: ks =>
      isContainer t &&
      (match ownOpt t (keyToString k) with
       | some c => isUndefV c || containersAlong c (k2 :: ks)
       | none => true)

/-- Every segment of the path resolves to a present, non-`undefined` node. -/
def hasPath : JVal → List JKey → Bool
  | _, [] => true
  | t, k :: ks =>
      match ownOpt t (keyToString k) with
      | some c => !isUndefV c && hasPath c ks
      | none => false

/-! ## Concrete fixtures used by the witnesses -/

/-- An engine state whose five sources all assign `x` (values 1..5 in
precedence order). -/
def cfgC1 : Configuration :=
  { appName := "app", keyAppName := "app", delimiter := "_", hyphenSubstitute := "_",
    extensions := defaultExtensions,
    defaults := JVal.vObj [("x", JVal.vNum 1)],
    env := JVal.vObj [("x", JVal.vNum 3)],
    argv := JVal.vObj [("x", JVal.vNum 4)],
    overrides := JVal.vObj [("x", JVal.vNum 5)],
    configList := [JVal.vObj [("x", JVal.vNum 2)]],
    configFiles := [], cookedConfigFiles := [], diag := [], merged := none }

/-- An engine state with defaults `{a:{p:1}}` and the environment tree the
extractor builds from `APP_A_Q=2`. -/
def cfgC2 : Configuration :=
  { appName := "app", keyAppName := "app", delimiter := "_", hyphenSubstitute := "_",
    extensions := defaultExtensions,
    defaults := JVal.vObj [("a", JVal.vObj [("p", JVal.vNum 1)])],
    env := JVal.vObj [("a", JVal.vObj [("q", JVal.vNum 2)])],
    argv := JVal.vObj [], overrides := JVal.vObj [],
    configList := [],
    configFiles := [], cookedConfigFiles := [], diag := [], merged := none }

/-- A filesystem holding exactly one file, `/w/.app.json`. -/
def fsC3 : List (JPath × String) := [(⟨true, ["w"], ".app.json"⟩, "not empty")]

/-- Collaborator parsers for the fixtures: JSON parsing succeeds with a
fixed tree, every other format fails. -/
def parsersC3 : Parsers :=
  { iniP := fun _ => none, jsonP := fun _ => some (JVal.vObj [("k", JVal.vNum 1)]),
    json5P := fun _ => none, yamlP := fun _ => none }

/-- The loader run for app name `app`, home `/h`, cwd `/w`, non-Windows,
over `fsC3`. -/
def loadedC3 : CState :=
  add_files fsC3 parsersC3 defaultExtensions false (some ["h"]) ["w"] "app"
    ⟨[], [], [], []⟩

/-- Collaborator parsers that always fail (for fixtures with no loadable
files). -/
def parsersNone : Parsers :=
  { iniP := fun _ => none, jsonP := fun _ => none,
    json5P := fun _ => none, yamlP := fun _ => none }

/-! ## Association-list and merge lemmas -/

theorem lookupA_assocSet_self (ps : List (String × JVal)) (k : String) (v : JVal) :
    lookupA (assocSet ps k v) k = some v := by
  induction ps with
  | nil => simp [assocSet, lookupA]
  | cons p rest ih =>
      obtain ⟨k0, v0⟩ := p
      by_cases h : k0 = k
      · subst h; simp [assocSet, lookupA]
      · simp [assocSet, lookupA, h, ih]

theorem lookupA_assocSet_ne (ps : List (String × JVal)) (k k' : String) (v : JVal)
    (h : k' ≠ k) : lookupA (assocSet ps k v) k' = lookupA ps k' := by
  induction ps with
  | nil => simp [assocSet, lookupA, Ne.symm h]
  | cons p rest ih =>
      obtain ⟨k0, v0⟩ := p
      by_cases h0 : k0 = k
      · subst h0; simp [assocSet, lookupA, Ne.symm h]
      · simp [assocSet, lookupA, h0, ih]

theorem assocSet_self_of_lookupA (ps : List (String × JVal)) (k : String) (v : JVal)
    (h : lookupA ps k = some v) : assocSet ps k v = ps := by
  induction ps with
  | nil => simp [lookupA] at h
  | cons p rest ih =>
      obtain ⟨k0, v0⟩ := p
      by_cases h0 : k0 = k
      · subst h0
        simp [lookupA] at h
        simp [assocSet, h]
      · simp [lookupA, h0] at h
        simp [assocSet, h0, ih h]

theorem keyIn_false_iff (ps : List (String × JVal)) (k : String) :
    keyIn k ps = false ↔ lookupA ps k = none := by
  induction ps with
  | nil => simp [keyIn, lookupA]
  | cons p rest ih =>
      obtain ⟨k0, v0⟩ := p
      by_cases h0 : k0 = k
      · subst h0; simp [keyIn, lookupA]
      · simp [keyIn, lookupA, h0, ih]

theorem lookupA_assignPairs_of_keyIn_false (ps : List (String × JVal)) (k : String)
    (h : keyIn k ps = false) (acc : List (String × JVal)) :
    lookupA (assignPairs acc ps) k = lookupA acc k := by
  induction ps generalizing acc with
  | nil => rfl
  | cons p rest ih =>
      obtain ⟨k0, v0⟩ := p
      by_cases h0 : k0 = k
      · subst h0; simp [keyIn] at h
      · simp only [keyIn, if_neg h0] at h
        show lookupA (assignPairs (assocSet acc k0 v0) rest) k = lookupA acc k
        rw [ih h, lookupA_assocSet_ne _ _ _ _ (fun hh => h0 hh.symm)]

theorem lookupA_assignPairs_of_found (ps : List (String × JVal)) (k : String) (v : JVal)
    (hnd : keysND ps = true) (h : lookupA ps k = some v) (acc : List (String × JVal)) :
    lookupA (assignPairs acc ps) k = some v := by
  induction ps generalizing acc with
  | nil => simp [lookupA] at h
  | cons p rest ih =>
      obtain ⟨k0, v0⟩ := p
      simp only [keysND, Bool.and_eq_true, Bool.not_eq_true'] at hnd
      by_cases h0 : k0 = k
      · subst h0
        simp [lookupA] at h
        subst h
        show lookupA (assignPairs (assocSet acc k0 v0) rest) k0 = some v0
        rw [lookupA_assignPairs_of_keyIn_false _ _ hnd.1, lookupA_assocSet_self]
      · simp [lookupA, h0] at h
        show lookupA (assignPairs (assocSet acc k0 v0) rest) k = some v
        exact ih hnd.2 h _

theorem foldlAssign_of_none (post : List JVal) (k : String)
    (h : ∀ u ∈ post, ownLookup u k = none) (acc : List (String × JVal)) :
    lookupA (post.foldl (fun a s => assignPairs a (ownPairs s)) acc) k = lookupA acc k := by
  induction post generalizing acc with
  | nil => rfl
  | cons u rest ih =>
      rw [List.foldl_cons, ih (fun w hw => h w (List.mem_cons_of_mem _ hw))]
      have hu : ownLookup u k = none := h u (List.mem_cons_self _ _)
      exact lookupA_assignPairs_of_keyIn_false _ _ ((keyIn_false_iff _ _).mpr hu) _

/-- In the `Object.assign` fold, the last source carrying a key decides that
key's value in the result. -/
theorem mergeSources_last_wins (pre : List JVal) (s : JVal) (post : List JVal)
    (k : String) (v : JVal) (hs : ownLookup s k = some v) (hnd : nodupKeys s = true)
    (hpost : ∀ u ∈ post, ownLookup u k = none) :
    ownLookup (mergeSources (pre ++ s :: post)) k = some v := by
  show lookupA ((pre ++ s :: post).foldl (fun a t => assignPairs a (ownPairs t)) []) k = some v
  rw [List.foldl_append, List.foldl_cons, foldlAssign_of_none post k hpost]
  exact lookupA_assignPairs_of_found _ _ _ hnd hs _

theorem get_eq_merge (c : Configuration)
    (hcache : c.merged = none ∨ c.merged = some (Configuration.merge c)) :
    Configuration.get c = Configuration.merge c := by
  rcases hcache with h | h <;> simp [Configuration.get, h]

/-! ## Claims C1, C2, C3 -/

/-- Claim C1: when the five sources of an engine instance all assign the
top-level key `x` (defaults 1, the file source 2, environment 3, cli 4,
overrides 5), `get()` resolves `x` to the overrides value 5, and the fold
is, definitionally, `Object.assign` over defaults, the file sources in
discovery order, environment, cli, and overrides, in that order. -/
theorem c1_precedence_get (c : Configuration) (f : JVal)
    (hcache : c.merged = none ∨ c.merged = some (Configuration.merge c))
    (hfiles : c.configList = [f])
    (_hd : ownLookup c.defaults "x" = some (JVal.vNum 1))
    (_hf : ownLookup f "x" = some (JVal.vNum 2))
    (_he : ownLookup c.env "x" = some (JVal.vNum 3))
    (_ha : ownLookup c.argv "x" = some (JVal.vNum 4))
    (ho : ownLookup c.overrides "x" = some (JVal.vNum 5))
    (hnd : nodupKeys c.overrides = true) :
    ownLookup (Configuration.get c) "x" = some (JVal.vNum 5) ∧
    Configuration.merge c =
      mergeSources (c.defaults :: (c.configList ++ [c.env, c.argv, c.overrides])) := by
  refine ⟨?_, rfl⟩
  rw [get_eq_merge c hcache]
  show ownLookup
    (mergeSources (c.defaults :: (c.configList ++ [c.env, c.argv, c.overrides]))) "x" =
      some (JVal.vNum 5)
  have hm : c.defaults :: (c.configList ++ [c.env, c.argv, c.overrides]) =
      [c.defaults, f, c.env, c.argv] ++ c.overrides :: [] := by simp [hfiles]
  rw [hm]
  exact mergeSources_last_wins _ _ _ _ _ ho hnd (by intro u hu; cases hu)

/-- Witness for C1 at a concrete engine state. -/
theorem c1_precedence_get_witness :
    ownLookup (Configuration.get cfgC1) "x" = some (JVal.vNum 5) :=
  (c1_precedence_get cfgC1 (JVal.vObj [("x", JVal.vNum 2)])
    (Or.inl rfl) rfl rfl rfl rfl rfl rfl rfl).1

/-- Claim C2: the fold is a top-level shallow merge — whichever source is
the last to carry a top-level key contributes its entire value for that key
to `get()`'s result, with no recursive merging of nested structure. -/
theorem c2_shallow_merge_get (c : Configuration) (pre post : List JVal) (s : JVal)
    (k : String) (v : JVal)
    (hcache : c.merged = none ∨ c.merged = some (Configuration.merge c))
    (hsplit : c.defaults :: (c.configList ++ [c.env, c.argv, c.overrides]) =
      pre ++ s :: post)
    (hs : ownLookup s k = some v) (hnd : nodupKeys s = true)
    (hpost : ∀ u ∈ post, ownLookup u k = none) :
    ownLookup (Configuration.get c) k = some v := by
  rw [get_eq_merge c hcache]
  show ownLookup
    (mergeSources (c.defaults :: (c.configList ++ [c.env, c.argv, c.overrides]))) k = some v
  rw [hsplit]
  exact mergeSources_last_wins _ _ _ _ _ hs hnd hpost

/-- Witness for C2: defaults `{a:{p:1}}`, environment from `APP_A_Q=2`;
the merged `a` is exactly `{q:2}` — `p` is gone. -/
theorem c2_shallow_merge_get_witness :
    parse_env "app" "_" [("APP_A_Q", JVal.vStr "2")] = .ok cfgC2.env ∧
    ownLookup (Configuration.get cfgC2) "a" = some (JVal.vObj [("q", JVal.vNum 2)]) ∧
    ownLookup (jGet (Configuration.get cfgC2) "a") "p" = none ∧
    ownLookup (jGet (Configuration.get cfgC2) "a") "q" = some (JVal.vNum 2) := by
  refine ⟨rfl, ?_, rfl, rfl⟩
  exact c2_shallow_merge_get cfgC2 [cfgC2.defaults] [cfgC2.argv, cfgC2.overrides]
    cfgC2.env "a" (JVal.vObj [("q", JVal.vNum 2)]) (Or.inl rfl) rfl rfl rfl
    (by
      intro u hu
      cases hu with
      | head => rfl
      | tail _ hu =>
          cases hu with
          | head => rfl
          | tail _ hu => cases hu)


/-! ## Claim C3: the `add_files` run over `fsC3`, one `add_config_file` call
at a time (each step is a definitional equality; the chain is then assembled
syntactically) -/

/-- Step 1 of the `add_files` run over `fsC3`. -/
theorem c3_step_1 (cl : List JVal) (cooked diag : List JPath) :
    add_config_file fsC3 parsersC3 defaultExtensions ["w"]
      (CState.mk cl [] cooked diag)
      (JPath.mk true ["app", "etc"] "config") false =
    CState.mk cl [] cooked
      (diag ++ [JPath.mk true ["app", "etc"] "config"] ++ [JPath.mk true ["app", "etc"] "config.json"] ++ [JPath.mk true ["app", "etc"] "config.json5"] ++ [JPath.mk true ["app", "etc"] "config.ini"] ++ [JPath.mk true ["app", "etc"] "config.yml"] ++ [JPath.mk true ["app", "etc"] "config.yaml"] ++ [JPath.mk true ["app", "etc"] "configconf"]) := rfl

/-- Step 2 of the `add_files` run over `fsC3`. -/
theorem c3_step_2 (cl : List JVal) (cooked diag : List JPath) :
    add_config_file fsC3 parsersC3 defaultExtensions ["w"]
      (CState.mk cl [] cooked diag)
      (JPath.mk true ["etc"] "apprc") false =
    CState.mk cl [] cooked
      (diag ++ [JPath.mk true ["etc"] "apprc"] ++ [JPath.mk true ["etc"] "apprc.json"] ++ [JPath.mk true ["etc"] "apprc.json5"] ++ [JPath.mk true ["etc"] "apprc.ini"] ++ [JPath.mk true ["etc"] "apprc.yml"] ++ [JPath.mk true ["etc"] "apprc.yaml"] ++ [JPath.mk true ["etc"] "apprcconf"]) := rfl

/-- Step 3 of the `add_files` run over `fsC3`. -/
theorem c3_step_3 (cl : List JVal) (cooked diag : List JPath) :
    add_config_file fsC3 parsersC3 defaultExtensions ["w"]
      (CState.mk cl [] cooked diag)
      (JPath.mk true ["etc"] "app") false =
    CState.mk cl [] cooked
      (diag ++ [JPath.mk true ["etc"] "app"] ++ [JPath.mk true ["etc"] "app.json"] ++ [JPath.mk true ["etc"] "app.json5"] ++ [JPath.mk true ["etc"] "app.ini"] ++ [JPath.mk true ["etc"] "app.yml"] ++ [JPath.mk true ["etc"] "app.yaml"] ++ [JPath.mk true ["etc"] "appconf"]) := rfl

/-- Step 4 of the `add_files` run over `fsC3`. -/
theorem c3_step_4 (cl : List JVal) (cooked diag : List JPath) :
    add_config_file fsC3 parsersC3 defaultExtensions ["w"]
      (CState.mk cl [] cooked diag)
      (JPath.mk true ["app", ".config", "h"] "config") false =
    CState.mk cl [] cooked
      (diag ++ [JPath.mk true ["app", ".config", "h"] "config"] ++ [JPath.mk true ["app", ".config", "h"] "config.json"] ++ [JPath.mk true ["app", ".config", "h"] "config.json5"] ++ [JPath.mk true ["app", ".config", "h"] "config.ini"] ++ [JPath.mk true ["app", ".config", "h"] "config.yml"] ++ [JPath.mk true ["app", ".config", "h"] "config.yaml"] ++ [JPath.mk true ["app", ".config", "h"] "configconf"]) := rfl

/-- Step 5 of the `add_files` run over `fsC3`. -/
theorem c3_step_5 (cl : List JVal) (cooked diag : List JPath) :
    add_config_file fsC3 parsersC3 defaultExtensions ["w"]
      (CState.mk cl [] cooked diag)
      (JPath.mk true [".config", "h"] "app") false =
    CState.mk cl [] cooked
      (diag ++ [JPath.mk true [".config", "h"] "app"] ++ [JPath.mk true [".config", "h"] "app.json"] ++ [JPath.mk true [".config", "h"] "app.json5"] ++ [JPath.mk true [".config", "h"] "app.ini"] ++ [JPath.mk true [".config", "h"] "app.yml"] ++ [JPath.mk true [".config", "h"] "app.yaml"] ++ [JPath.mk true [".config", "h"] "appconf"]) := rfl

/-- Step 6 of the `add_files` run over `fsC3`. -/
theorem c3_step_6 (cl : List JVal) (cooked diag : List JPath) :
    add_config_file fsC3 parsersC3 defaultExtensions ["w"]
      (CState.mk cl [] cooked diag)
      (JPath.mk true [".app", "h"] "config") false =
    CState.mk cl [] cooked
      (diag ++ [JPath.mk true [".app", "h"] "config"] ++ [JPath.mk true [".app", "h"] "config.json"] ++ [JPath.mk true [".app", "h"] "config.json5"] ++ [JPath.mk true [".app", "h"] "config.ini"] ++ [JPath.mk true [".app", "h"] "config.yml"] ++ [JPath.mk true [".app", "h"] "config.yaml"] ++ [JPath.mk true [".app", "h"] "configconf"]) := rfl

/-- Step 7 of the `add_files` run over `fsC3`. -/
theorem c3_step_7 (cl : List JVal) (cooked diag : List JPath) :
    add_config_file fsC3 parsersC3 defaultExtensions ["w"]
      (CState.mk cl [] cooked diag)
      (JPath.mk true ["h"] ".app") false =
    CState.mk cl [] cooked
      (diag ++ [JPath.mk true ["h"] ".app"] ++ [JPath.mk true ["h"] ".app.json"] ++ [JPath.mk true ["h"] ".app.json5"] ++ [JPath.mk true ["h"] ".app.ini"] ++ [JPath.mk true ["h"] ".app.yml"] ++ [JPath.mk true ["h"] ".app.yaml"] ++ [JPath.mk true ["h"] ".appconf"]) := rfl

/-- Step 8 of the `add_files` run over `fsC3`. -/
theorem c3_step_8 (cl : List JVal) (cooked diag : List JPath) :
    add_config_file fsC3 parsersC3 defaultExtensions ["w"]
      (CState.mk cl [] cooked diag)
      (JPath.mk true ["h"] ".apprc") false =
    CState.mk cl [] cooked
      (diag ++ [JPath.mk true ["h"] ".apprc"] ++ [JPath.mk true ["h"] ".apprc.json"] ++ [JPath.mk true ["h"] ".apprc.json5"] ++ [JPath.mk true ["h"] ".apprc.ini"] ++ [JPath.mk true ["h"] ".apprc.yml"] ++ [JPath.mk true ["h"] ".apprc.yaml"] ++ [JPath.mk true ["h"] ".apprcconf"]) := rfl

/-- Step 9 of the `add_files` run over `fsC3`. -/
theorem c3_step_9 (cl : List JVal) (cooked diag : List JPath) :
    add_config_file fsC3 parsersC3 defaultExtensions ["w"]
      (CState.mk cl [] cooked diag)
      (JPath.mk true ["h"] "app") false =
    CState.mk cl [] cooked
      (diag ++ [JPath.mk true ["h"] "app"] ++ [JPath.mk true ["h"] "app.json"] ++ [JPath.mk true ["h"] "app.json5"] ++ [JPath.mk true ["h"] "app.ini"] ++ [JPath.mk true ["h"] "app.yml"] ++ [JPath.mk true ["h"] "app.yaml"] ++ [JPath.mk true ["h"] "appconf"]) := rfl

/-- Step 10 of the `add_files` run over `fsC3`. -/
theorem c3_step_10 (cl : List JVal) (cooked diag : List JPath) :
    add_config_file fsC3 parsersC3 defaultExtensions ["w"]
      (CState.mk cl [] cooked diag)
      (JPath.mk true ["app", ".config", "w"] "config") false =
    CState.mk cl [] cooked
      (diag ++ [JPath.mk true ["app", ".config", "w"] "config"] ++ [JPath.mk true ["app", ".config", "w"] "config.json"] ++ [JPath.mk true ["app", ".config", "w"] "config.json5"] ++ [JPath.mk true ["app", ".config", "w"] "config.ini"] ++ [JPath.mk true ["app", ".config", "w"] "config.yml"] ++ [JPath.mk true ["app", ".config", "w"] "config.yaml"] ++ [JPath.mk true ["app", ".config", "w"] "configconf"]) := rfl

/-- Step 11 of the `add_files` run over `fsC3`. -/
theorem c3_step_11 (cl : List JVal) (cooked diag : List JPath) :
    add_config_file fsC3 parsersC3 defaultExtensions ["w"]
      (CState.mk cl [] cooked diag)
      (JPath.mk true [".config", "w"] "app") false =
    CState.mk cl [] cooked
      (diag ++ [JPath.mk true [".config", "w"] "app"] ++ [JPath.mk true [".config", "w"] "app.json"] ++ [JPath.mk true [".config", "w"] "app.json5"] ++ [JPath.mk true [".config", "w"] "app.ini"] ++ [JPath.mk true [".config", "w"] "app.yml"] ++ [JPath.mk true [".config", "w"] "app.yaml"] ++ [JPath.mk true [".config", "w"] "appconf"]) := rfl

/-- Step 12 of the `add_files` run over `fsC3`. -/
theorem c3_step_12 (cl : List JVal) (cooked diag : List JPath) :
    add_config_file fsC3 parsersC3 defaultExtensions ["w"]
      (CState.mk cl [] cooked diag)
      (JPath.mk true [".app", "w"] "config") false =
    CState.mk cl [] cooked
      (diag ++ [JPath.mk true [".app", "w"] "config"] ++ [JPath.mk true [".app", "w"] "config.json"] ++ [JPath.mk true [".app", "w"] "config.json5"] ++ [JPath.mk true [".app", "w"] "config.ini"] ++ [JPath.mk true [".app", "w"] "config.yml"] ++ [JPath.mk true [".app", "w"] "config.yaml"] ++ [JPath.mk true [".app", "w"] "configconf"]) := rfl

/-- Step 13 of the `add_files` run over `fsC3`. -/
theorem c3_step_13 (cl : List JVal) (cooked diag : List JPath) :
    add_config_file fsC3 parsersC3 defaultExtensions ["w"]
      (CState.mk cl [] cooked diag)
      (JPath.mk true ["w"] ".app") false =
    CState.mk (cl ++ [JVal.vObj [("k", JVal.vNum 1)]]) [JPath.mk true ["w"] ".app"] (cooked ++ [JPath.mk true ["w"] ".app.json"])
      (diag ++ [JPath.mk true ["w"] ".app"] ++ [JPath.mk true ["w"] ".app.json"]) := rfl

/-- Step 14 of the `add_files` run over `fsC3`. -/
theorem c3_step_14 (cl : List JVal) (cooked diag : List JPath) :
    add_config_file fsC3 parsersC3 defaultExtensions ["w"]
      (CState.mk cl [JPath.mk true ["w"] ".app"] cooked diag)
      (JPath.mk true ["w"] ".apprc") false =
    CState.mk cl [JPath.mk true ["w"] ".app"] cooked
      (diag ++ [JPath.mk true ["w"] ".apprc"] ++ [JPath.mk true ["w"] ".apprc.json"] ++ [JPath.mk true ["w"] ".apprc.json5"] ++ [JPath.mk true ["w"] ".apprc.ini"] ++ [JPath.mk true ["w"] ".apprc.yml"] ++ [JPath.mk true ["w"] ".apprc.yaml"] ++ [JPath.mk true ["w"] ".apprcconf"]) := rfl

/-- Step 15 of the `add_files` run over `fsC3`. -/
theorem c3_step_15 (cl : List JVal) (cooked diag : List JPath) :
    add_config_file fsC3 parsersC3 defaultExtensions ["w"]
      (CState.mk cl [JPath.mk true ["w"] ".app"] cooked diag)
      (JPath.mk true ["w"] "app") false =
    CState.mk cl [JPath.mk true ["w"] ".app"] cooked
      (diag ++ [JPath.mk true ["w"] "app"] ++ [JPath.mk true ["w"] "app.json"] ++ [JPath.mk true ["w"] "app.json5"] ++ [JPath.mk true ["w"] "app.ini"] ++ [JPath.mk true ["w"] "app.yml"] ++ [JPath.mk true ["w"] "app.yaml"] ++ [JPath.mk true ["w"] "appconf"]) := rfl

/-- Step 16 of the `add_files` run over `fsC3`. -/
theorem c3_step_16 (cl : List JVal) (cooked diag : List JPath) :
    add_config_file fsC3 parsersC3 defaultExtensions ["w"]
      (CState.mk cl [JPath.mk true ["w"] ".app"] cooked diag)
      (JPath.mk false [] ".apprc") true =
    CState.mk cl [JPath.mk true ["w"] ".app"] cooked
      (diag ++ [JPath.mk true ["w"] ".apprc"] ++ [JPath.mk true [] ".apprc"] ++ [JPath.mk true ["w"] ".apprc.json"] ++ [JPath.mk true [] ".apprc.json"] ++ [JPath.mk true ["w"] ".apprc.json5"] ++ [JPath.mk true [] ".apprc.json5"] ++ [JPath.mk true ["w"] ".apprc.ini"] ++ [JPath.mk true [] ".apprc.ini"] ++ [JPath.mk true ["w"] ".apprc.yml"] ++ [JPath.mk true [] ".apprc.yml"] ++ [JPath.mk true ["w"] ".apprc.yaml"] ++ [JPath.mk true [] ".apprc.yaml"] ++ [JPath.mk true ["w"] ".apprcconf"] ++ [JPath.mk true [] ".apprcconf"]) := rfl

/-- Step 17 of the `add_files` run over `fsC3`. -/
theorem c3_step_17 (cl : List JVal) (cooked diag : List JPath) :
    add_config_file fsC3 parsersC3 defaultExtensions ["w"]
      (CState.mk cl [JPath.mk true ["w"] ".app"] cooked diag)
      (JPath.mk false [] ".app") true =
    CState.mk (cl ++ [JVal.vObj [("k", JVal.vNum 1)]]) [JPath.mk true ["w"] ".app", JPath.mk false [] ".app"] (cooked ++ [JPath.mk true ["w"] ".app.json"])
      (diag ++ [JPath.mk true ["w"] ".app"] ++ [JPath.mk true [] ".app"] ++ [JPath.mk true ["w"] ".app.json"]) := rfl

/-- Step 18 of the `add_files` run over `fsC3`. -/
theorem c3_step_18 (cl : List JVal) (cooked diag : List JPath) :
    add_config_file fsC3 parsersC3 defaultExtensions ["w"]
      (CState.mk cl [JPath.mk true ["w"] ".app", JPath.mk false [] ".app"] cooked diag)
      (JPath.mk false [] "app") true =
    CState.mk cl [JPath.mk true ["w"] ".app", JPath.mk false [] ".app"] cooked
      (diag ++ [JPath.mk true ["w"] "app"] ++ [JPath.mk true [] "app"] ++ [JPath.mk true ["w"] "app.json"] ++ [JPath.mk true [] "app.json"] ++ [JPath.mk true ["w"] "app.json5"] ++ [JPath.mk true [] "app.json5"] ++ [JPath.mk true ["w"] "app.ini"] ++ [JPath.mk true [] "app.ini"] ++ [JPath.mk true ["w"] "app.yml"] ++ [JPath.mk true [] "app.yml"] ++ [JPath.mk true ["w"] "app.yaml"] ++ [JPath.mk true [] "app.yaml"] ++ [JPath.mk true ["w"] "appconf"] ++ [JPath.mk true [] "appconf"]) := rfl


/-- Claim C3 is false of the code, and the spec states the intended
behavior: with only `/w/.app.json` on disk (app name `app`, home `/h`,
cwd `/w`, non-Windows), the direct probe loads it but records the
extension-less base `/w/.app` in the loaded ledger, and the upward search
then resolves `.app.json` to the very same filesystem path; the dedup
checks compare full filenames against the ledger of base names, so the one
physical file is parsed and merged twice, contributing two file sources. -/
theorem c3_same_path_loaded_twice :
    loadedC3.cookedConfigFiles =
      [JPath.mk true ["w"] ".app.json", JPath.mk true ["w"] ".app.json"] ∧
    loadedC3.configList.length = 2 := by
  have hs1 : "." ++ "app" = ".app" := rfl
  have hs2 : ".app" ++ "rc" = ".apprc" := rfl
  have hs3 : "app" ++ "rc" = "apprc" := rfl
  have e0 : loadedC3 = add_files fsC3 parsersC3 defaultExtensions false (some ["h"]) ["w"]
      "app" (CState.mk [] [] [] []) := rfl
  simp only [add_files, hs1, hs2, hs3, List.map_cons, List.map_nil, joinShape,
    List.reverse_cons, List.reverse_nil, List.nil_append, List.cons_append, List.append_nil,
    Bool.not_false, reduceIte, List.foldl_cons, List.foldl_nil] at e0
  simp only [c3_step_1, c3_step_2, c3_step_3, c3_step_4, c3_step_5, c3_step_6, c3_step_7, c3_step_8, c3_step_9, c3_step_10, c3_step_11, c3_step_12, c3_step_13, c3_step_14, c3_step_15, c3_step_16, c3_step_17, c3_step_18] at e0
  rw [e0]
  exact ⟨rfl, rfl⟩

/-! ## Path-accessor lemmas -/

theorem setPropE_ok_of_container : ∀ (t : JVal), isContainer t = true →
    ∀ (k : String) (v : JVal), ∃ t', setPropE t k v = .ok t'
  | vObj _, _, _, _ => ⟨_, rfl⟩
  | vArr _, _, _, _ => ⟨_, rfl⟩
  | vNum _, h, _, _ => Bool.noConfusion h
  | vStr _, h, _, _ => Bool.noConfusion h
  | vBool _, h, _, _ => Bool.noConfusion h
  | vNull, h, _, _ => Bool.noConfusion h
  | vUndef, h, _, _ => Bool.noConfusion h

theorem setPropE_inv (t t' : JVal) (k : String) (v : JVal) (h : setPropE t k v = .ok t') :
    isContainer t = true ∧ isContainer t' = true ∧ ownOpt t' k = some v := by
  cases t with
  | vObj ps =>
      simp only [setPropE, Except.ok.injEq] at h
      subst h
      exact ⟨rfl, rfl, lookupA_assocSet_self ps k v⟩
  | vArr ps =>
      simp only [setPropE, Except.ok.injEq] at h
      subst h
      exact ⟨rfl, rfl, lookupA_assocSet_self ps k v⟩
  | vNum n => simp [setPropE] at h
  | vStr s => simp [setPropE] at h
  | vBool b => simp [setPropE] at h
  | vNull => simp [setPropE] at h
  | vUndef => simp [setPropE] at h

theorem getPropE_container : ∀ (t : JVal), isContainer t = true →
    ∀ (k : String), getPropE t k = .ok (ownOpt t k)
  | vObj _, _, _ => rfl
  | vArr _, _, _ => rfl
  | vNum _, h, _ => Bool.noConfusion h
  | vStr _, h, _ => Bool.noConfusion h
  | vBool _, h, _ => Bool.noConfusion h
  | vNull, h, _ => Bool.noConfusion h
  | vUndef, h, _ => Bool.noConfusion h

theorem setPropE_reset : ∀ (t : JVal), isContainer t = true → ∀ (k : String) (v : JVal),
    ownOpt t k = some v → setPropE t k v = .ok t
  | vObj ps, _, k, v, h => by
      simp only [setPropE, Except.ok.injEq, JVal.vObj.injEq]
      exact assocSet_self_of_lookupA ps k v h
  | vArr ps, _, k, v, h => by
      simp only [setPropE, Except.ok.injEq, JVal.vArr.injEq]
      exact assocSet_self_of_lookupA ps k v h
  | vNum _, h, _, _, _ => Bool.noConfusion h
  | vStr _, h, _, _, _ => Bool.noConfusion h
  | vBool _, h, _, _, _ => Bool.noConfusion h
  | vNull, h, _, _, _ => Bool.noConfusion h
  | vUndef, h, _, _, _ => Bool.noConfusion h

theorem isUndefV_of_container : ∀ (t : JVal), isContainer t = true → isUndefV t = false
  | vObj _, _ => rfl
  | vArr _, _ => rfl
  | vNum _, h => Bool.noConfusion h
  | vStr _, h => Bool.noConfusion h
  | vBool _, h => Bool.noConfusion h
  | vNull, h => Bool.noConfusion h
  | vUndef, h => Bool.noConfusion h

theorem jsFalsy_of_container : ∀ (t : JVal), isContainer t = true → jsFalsy t = false
  | vObj _, _ => rfl
  | vArr _, _ => rfl
  | vNum _, h => Bool.noConfusion h
  | vStr _, h => Bool.noConfusion h
  | vBool _, h => Bool.noConfusion h
  | vNull, h => Bool.noConfusion h
  | vUndef, h => Bool.noConfusion h

theorem fresh_containersAlong (k : JKey) (rest : List JKey) :
    containersAlong (freshFor k) rest = true := by
  cases k <;> rcases rest with _ | ⟨k2, _ | ⟨k3, ks⟩⟩ <;> rfl

theorem splitChar_ne_nil (sep : Char) (l : List Char) : splitChar sep l ≠ [] := by
  cases l with
  | nil => simp [splitChar]
  | cons c cs =>
      by_cases h : c = sep
      · simp [splitChar, h]
      · simp only [splitChar, if_neg h]
        cases splitChar sep cs <;> simp

theorem splitKeys_ne_nil (acc : String) : splitKeys acc ≠ [] := by
  intro h
  exact splitChar_ne_nil '.' acc.data (List.map_eq_nil_iff.mp h)

theorem gsWrite_inv : ∀ (ks : List JKey) (t v t' : JVal), ks ≠ [] →
    gsWrite t ks v = .ok t' → isContainer t = true ∧ isContainer t' = true := by
  intro ks
  induction ks with
  | nil => intro t v t' h; exact absurd rfl h
  | cons k rest ih =>
      cases rest with
      | nil =>
          intro t v t' _ h
          obtain ⟨h1, h2, _⟩ := setPropE_inv t t' (keyToString k) v h
          exact ⟨h1, h2⟩
      | cons k2 ks2 =>
          intro t v t' _ h
          simp only [gsWrite] at h
          split at h
          · exact Except.noConfusion h
          · rename_i cur hcur
            split at h
            · split at h
              · exact Except.noConfusion h
              · rename_i t1 ht1
                split at h
                · exact Except.noConfusion h
                · rename_i child' hch
                  obtain ⟨h1, _, _⟩ := setPropE_inv _ _ _ _ ht1
                  obtain ⟨_, h2, _⟩ := setPropE_inv _ _ _ _ h
                  exact ⟨h1, h2⟩
            · split at h
              · exact Except.noConfusion h
              · obtain ⟨h1, h2, _⟩ := setPropE_inv _ _ _ _ h
                exact ⟨h1, h2⟩

theorem gsRead_after (k k2 : JKey) (ks2 : List JKey) (t' child' v : JVal)
    (ht' : isContainer t' = true)
    (hown : ownOpt t' (keyToString k) = some child')
    (hcc : isContainer child' = true)
    (hr : gsRead child' (k2 :: ks2) = .ok (child', v)) :
    gsRead t' (k :: k2 :: ks2) = .ok (t', v) := by
  simp only [gsRead, getPropE_container t' ht', hown, isUndefLike,
    isUndefV_of_container child' hcc, Option.getD_some, hr, hcc, if_true,
    setPropE_reset t' ht' (keyToString k) child' hown]
  rw [if_neg Bool.false_ne_true]

theorem gsWrite_gsRead : ∀ (ks : List JKey) (t v t' : JVal), isUndefV v = false →
    gsWrite t ks v = .ok t' → ks ≠ [] → gsRead t' ks = .ok (t', v) := by
  intro ks
  induction ks with
  | nil => intro t v t' _ _ h; exact absurd rfl h
  | cons k rest ih =>
      cases rest with
      | nil =>
          intro t v t' hv h _
          obtain ⟨_, h2, h3⟩ := setPropE_inv t t' (keyToString k) v h
          simp only [gsRead, getPropE_container t' h2, h3, isUndefLike, hv,
            Option.getD_some]
          rw [if_neg Bool.false_ne_true]
      | cons k2 ks2 =>
          intro t v t' hv h _
          simp only [gsWrite] at h
          split at h
          · exact Except.noConfusion h
          · rename_i cur hcur
            split at h
            · split at h
              · exact Except.noConfusion h
              · rename_i t1 ht1
                split at h
                · exact Except.noConfusion h
                · rename_i child' hch
                  obtain ⟨hcc⟩ := gsWrite_inv (k2 :: ks2) (freshFor k2) v child'
                    (by simp) hch
                  obtain ⟨_, hc2, hc3⟩ := setPropE_inv _ _ _ _ h
                  exact gsRead_after k k2 ks2 t' child' v hc2 hc3
                    (gsWrite_inv (k2 :: ks2) (freshFor k2) v child' (by simp) hch).2
                    (ih (freshFor k2) v child' hv hch (by simp))
            · split at h
              · exact Except.noConfusion h
              · rename_i child' hch
                obtain ⟨_, hc2, hc3⟩ := setPropE_inv _ _ _ _ h
                exact gsRead_after k k2 ks2 t' child' v hc2 hc3
                  (gsWrite_inv (k2 :: ks2) (cur.getD JVal.vUndef) v child' (by simp) hch).2
                  (ih (cur.getD JVal.vUndef) v child' hv hch (by simp))

/-! ## Claim C4 -/

/-- Claim C4 as frozen is false on two counts.  (1) The write form is not
total: with the tree `{q:null}` and the multi-segment path `q.r.s`,
`_getset` reads a property of `null` and throws a `TypeError` (the source
runs under `'use strict'`), so no resulting tree exists and the subsequent
read cannot return the value.  (2) The value `undefined` does not round-trip:
writing it succeeds, but the read finds `typeof ref[key] === 'undefined'`,
replaces the slot with a fresh `{}` and returns that instead. -/
theorem c4_counterexample :
    (getset_write (JVal.vObj [("q", JVal.vNull)]) "q.r.s" (JVal.vNum 7) = .error () ∧
     getset_read (JVal.vObj [("q", JVal.vNull)]) "q.r.s" = .error ()) ∧
    (getset_write (JVal.vObj []) "a.b.c" JVal.vUndef =
      .ok (JVal.vObj [("a", JVal.vObj [("b", JVal.vObj [("c", JVal.vUndef)])])]) ∧
     getset_read (JVal.vObj [("a", JVal.vObj [("b", JVal.vObj [("c", JVal.vUndef)])])])
        "a.b.c" =
      .ok (JVal.vObj [("a", JVal.vObj [("b", JVal.vObj [("c", JVal.vObj [])])])],
        JVal.vObj []) ∧
     (JVal.vObj [] : JVal) ≠ JVal.vUndef) :=
  ⟨⟨rfl, rfl⟩, rfl, rfl, fun h => JVal.noConfusion h⟩

/-- Claim C4 (amended): for every value other than `undefined`, whenever the
accessor write completes without throwing — which it always does when every
pre-existing node along the path is a container — reading the same
multi-segment path from the resulting tree returns exactly the written
value. -/
theorem c4_write_then_read_roundtrip (t : JVal) (acc : String) (v : JVal) (t' : JVal)
    (hacc : acc ≠ "") (hv : isUndefV v = false)
    (hw : getset_write t acc v = .ok t') :
    getset_read t' acc = .ok (t', v) := by
  rw [getset_write, if_neg hacc] at hw
  rw [getset_read, if_neg hacc]
  have hinv := gsWrite_inv (splitKeys acc) (baseObj t) v t' (splitKeys_ne_nil acc) hw
  rw [show baseObj t' = t' by rw [baseObj, jsFalsy_of_container t' hinv.2]; rfl]
  exact gsWrite_gsRead (splitKeys acc) (baseObj t) v t' hv hw (splitKeys_ne_nil acc)

/-- Witness for the amended C4 at the path `a.b.c`. -/
theorem c4_write_then_read_roundtrip_witness :
    getset_write (JVal.vObj []) "a.b.c" (JVal.vNum 7) =
      .ok (JVal.vObj [("a", JVal.vObj [("b", JVal.vObj [("c", JVal.vNum 7)])])]) ∧
    getset_read (JVal.vObj [("a", JVal.vObj [("b", JVal.vObj [("c", JVal.vNum 7)])])])
        "a.b.c" =
      .ok (JVal.vObj [("a", JVal.vObj [("b", JVal.vObj [("c", JVal.vNum 7)])])],
        JVal.vNum 7) :=
  ⟨rfl,
    c4_write_then_read_roundtrip (JVal.vObj []) "a.b.c" (JVal.vNum 7)
      (JVal.vObj [("a", JVal.vObj [("b", JVal.vObj [("c", JVal.vNum 7)])])])
      (by decide) rfl rfl⟩

theorem gsWrite_ok_of_containersAlong : ∀ (ks : List JKey) (t : JVal),
    containersAlong t ks = true → ∀ v : JVal, ∃ t', gsWrite t ks v = .ok t' := by
  intro ks
  induction ks with
  | nil => intro t _ v; exact ⟨t, rfl⟩
  | cons k rest ih =>
      cases rest with
      | nil =>
          intro t h v
          exact setPropE_ok_of_container t h (keyToString k) v
      | cons k2 ks2 =>
          intro t h v
          simp only [containersAlong, Bool.and_eq_true] at h
          obtain ⟨ht, hm⟩ := h
          cases hcur : ownOpt t (keyToString k) with
          | none =>
              obtain ⟨t1, ht1⟩ := setPropE_ok_of_container t ht (keyToString k) (freshFor k2)
              obtain ⟨c', hc'⟩ := ih (freshFor k2) (fresh_containersAlong k2 (k2 :: ks2)) v
              obtain ⟨t2, ht2⟩ :=
                setPropE_ok_of_container t1 (setPropE_inv _ _ _ _ ht1).2.1 (keyToString k) c'
              refine ⟨t2, ?_⟩
              simp only [gsWrite, getPropE_container t ht, hcur, isUndefLike, if_true,
                ht1, hc', ht2]
          | some c =>
              rw [hcur] at hm
              simp only [] at hm
              cases hu : isUndefV c with
              | true =>
                  obtain ⟨t1, ht1⟩ :=
                    setPropE_ok_of_container t ht (keyToString k) (freshFor k2)
                  obtain ⟨c', hc'⟩ := ih (freshFor k2) (fresh_containersAlong k2 (k2 :: ks2)) v
                  obtain ⟨t2, ht2⟩ :=
                    setPropE_ok_of_container t1 (setPropE_inv _ _ _ _ ht1).2.1 (keyToString k) c'
                  refine ⟨t2, ?_⟩
                  simp only [gsWrite, getPropE_container t ht, hcur, isUndefLike, hu, if_true,
                    ht1, hc', ht2]
              | false =>
                  rw [hu, Bool.false_or] at hm
                  obtain ⟨c', hc'⟩ := ih c hm v
                  obtain ⟨t2, ht2⟩ := setPropE_ok_of_container t ht (keyToString k) c'
                  refine ⟨t2, ?_⟩
                  simp only [gsWrite, getPropE_container t ht, hcur, isUndefLike, hu,
                    Option.getD_some, hc', ht2]
                  rw [if_neg Bool.false_ne_true]

/-! ## Claim C5 -/

/-- Claim C5 as frozen is false: a write is not error-free for every tree and
path.  When a scalar sits where a container is needed (`{s:5}` along `s.t`),
the strict-mode property assignment on the number throws a `TypeError`
instead of silently imposing an access pattern. -/
theorem c5_counterexample :
    getset_write (JVal.vObj [("s", JVal.vNum 5)]) "s.t" (JVal.vNum 1) = .error () := rfl

/-- Claim C5 (amended): a path-accessor write never raises when every node
that already exists along the path is a container (object or array); in that
regime conflicts between array-index and mapping-property access patterns
are silently absorbed (a numeric segment simply becomes a string property of
an object, and vice versa).  When a scalar or `null` occupies a position
where a container is needed, the write raises a `TypeError` instead. -/
theorem c5_write_no_error_on_containers (t : JVal) (acc : String) (v : JVal)
    (h : containersAlong (baseObj t) (splitKeys acc) = true) :
    ∃ t', getset_write t acc v = .ok t' := by
  by_cases hacc : acc = ""
  · exact ⟨t, by rw [getset_write, if_pos hacc]⟩
  · rw [getset_write, if_neg hacc]
    exact gsWrite_ok_of_containersAlong (splitKeys acc) (baseObj t) h v

/-- Witness for the amended C5: writing through an array node with a
non-numeric segment (`a.b` over `{a:[1]}`) succeeds silently. -/
theorem c5_write_no_error_on_containers_witness :
    containersAlong (baseObj (JVal.vObj [("a", JVal.vArr [("0", JVal.vNum 1)])]))
      (splitKeys "a.b") = true ∧
    (∃ t', getset_write (JVal.vObj [("a", JVal.vArr [("0", JVal.vNum 1)])]) "a.b"
      (JVal.vNum 2) = .ok t') ∧
    getset_write (JVal.vObj [("a", JVal.vArr [("0", JVal.vNum 1)])]) "a.b"
      (JVal.vNum 2) =
      .ok (JVal.vObj [("a", JVal.vArr [("0", JVal.vNum 1), ("b", JVal.vNum 2)])]) :=
  ⟨rfl,
    c5_write_no_error_on_containers (JVal.vObj [("a", JVal.vArr [("0", JVal.vNum 1)])])
      "a.b" (JVal.vNum 2) rfl,
    rfl⟩

theorem containersAlong_container : ∀ (ks : List JKey) (t : JVal), ks ≠ [] →
    containersAlong t ks = true → isContainer t = true := by
  intro ks t h hc
  cases ks with
  | nil => exact absurd rfl h
  | cons k rest =>
      cases rest with
      | nil => exact hc
      | cons k2 ks2 =>
          simp only [containersAlong, Bool.and_eq_true] at hc
          exact hc.1

theorem gsRead_inv : ∀ (ks : List JKey) (t t' r : JVal), isContainer t = true →
    gsRead t ks = .ok (t', r) → isContainer t' = true := by
  intro ks t t' r ht h
  cases ks with
  | nil =>
      simp only [gsRead, Except.ok.injEq, Prod.mk.injEq] at h
      rw [← h.1]; exact ht
  | cons k rest =>
      cases rest with
      | nil =>
          simp only [gsRead] at h
          split at h
          · exact Except.noConfusion h
          · rename_i cur hcur
            split at h
            · split at h
              · exact Except.noConfusion h
              · rename_i t1 ht1
                simp only [Except.ok.injEq, Prod.mk.injEq] at h
                rw [← h.1]
                exact (setPropE_inv _ _ _ _ ht1).2.1
            · simp only [Except.ok.injEq, Prod.mk.injEq] at h
              rw [← h.1]; exact ht
      | cons k2 ks2 =>
          simp only [gsRead] at h
          split at h
          · exact Except.noConfusion h
          · rename_i cur hcur
            split at h
            · split at h
              · exact Except.noConfusion h
              · rename_i t1 ht1
                split at h
                · exact Except.noConfusion h
                · rename_i r0 hr0
                  split at h
                  · exact Except.noConfusion h
                  · rename_i t2 ht2
                    simp only [Except.ok.injEq, Prod.mk.injEq] at h
                    rw [← h.1]
                    exact (setPropE_inv _ _ _ _ ht2).2.1
            · split at h
              · exact Except.noConfusion h
              · rename_i r0 hr0
                split at h
                · split at h
                  · exact Except.noConfusion h
                  · rename_i t2 ht2
                    simp only [Except.ok.injEq, Prod.mk.injEq] at h
                    rw [← h.1]
                    exact (setPropE_inv _ _ _ _ ht2).2.1
                · simp only [Except.ok.injEq, Prod.mk.injEq] at h
                  rw [← h.1]; exact ht

theorem gsRead_ok_of_containersAlong : ∀ (ks : List JKey) (t : JVal),
    containersAlong t ks = true → ∃ t' r, gsRead t ks = .ok (t', r) := by
  intro ks
  induction ks with
  | nil => intro t _; exact ⟨t, t, rfl⟩
  | cons k rest ih =>
      cases rest with
      | nil =>
          intro t h
          cases hcur : ownOpt t (keyToString k) with
          | none =>
              obtain ⟨t1, ht1⟩ := setPropE_ok_of_container t h (keyToString k) (JVal.vObj [])
              refine ⟨t1, JVal.vObj [], ?_⟩
              simp only [gsRead, getPropE_container t h, hcur, isUndefLike, if_true, ht1]
          | some c =>
              cases hu : isUndefV c with
              | true =>
                  obtain ⟨t1, ht1⟩ := setPropE_ok_of_container t h (keyToString k) (JVal.vObj [])
                  refine ⟨t1, JVal.vObj [], ?_⟩
                  simp only [gsRead, getPropE_container t h, hcur, isUndefLike, hu, if_true, ht1]
              | false =>
                  refine ⟨t, c, ?_⟩
                  simp only [gsRead, getPropE_container t h, hcur, isUndefLike, hu,
                    Option.getD_some]
                  rw [if_neg Bool.false_ne_true]
      | cons k2 ks2 =>
          intro t h
          simp only [containersAlong, Bool.and_eq_true] at h
          obtain ⟨ht, hm⟩ := h
          cases hcur : ownOpt t (keyToString k) with
          | none =>
              obtain ⟨t1, ht1⟩ := setPropE_ok_of_container t ht (keyToString k) (freshFor k2)
              obtain ⟨c', r, hc'⟩ := ih (freshFor k2) (fresh_containersAlong k2 (k2 :: ks2))
              obtain ⟨t2, ht2⟩ :=
                setPropE_ok_of_container t1 (setPropE_inv _ _ _ _ ht1).2.1 (keyToString k) c'
              refine ⟨t2, r, ?_⟩
              simp only [gsRead, getPropE_container t ht, hcur, isUndefLike, if_true,
                ht1, hc', ht2]
          | some c =>
              rw [hcur] at hm
              simp only [] at hm
              cases hu : isUndefV c with
              | true =>
                  obtain ⟨t1, ht1⟩ := setPropE_ok_of_container t ht (keyToString k) (freshFor k2)
                  obtain ⟨c', r, hc'⟩ := ih (freshFor k2) (fresh_containersAlong k2 (k2 :: ks2))
                  obtain ⟨t2, ht2⟩ :=
                    setPropE_ok_of_container t1 (setPropE_inv _ _ _ _ ht1).2.1 (keyToString k) c'
                  refine ⟨t2, r, ?_⟩
                  simp only [gsRead, getPropE_container t ht, hcur, isUndefLike, hu, if_true,
                    ht1, hc', ht2]
              | false =>
                  rw [hu, Bool.false_or] at hm
                  obtain ⟨c', r, hc'⟩ := ih c hm
                  have hcont : isContainer c' = true :=
                    gsRead_inv (k2 :: ks2) c c' r
                      (containersAlong_container (k2 :: ks2) c (by simp) hm) hc'
                  obtain ⟨t2, ht2⟩ := setPropE_ok_of_container t ht (keyToString k) c'
                  refine ⟨t2, r, ?_⟩
                  simp only [gsRead, getPropE_container t ht, hcur, isUndefLike, hu,
                    Option.getD_some, hc', hcont, if_true, ht2]
                  rw [if_neg Bool.false_ne_true]

theorem ne_of_ownOpt_ne (t t' : JVal) (k : String) (h : ownOpt t' k ≠ ownOpt t k) :
    t' ≠ t := fun he => h (by rw [he])

theorem ne_vUndef_of_container (t : JVal) (h : isContainer t = true) : t ≠ JVal.vUndef := by
  intro he
  rw [he] at h
  exact Bool.noConfusion h

theorem gsRead_mutates : ∀ (ks : List JKey) (t : JVal),
    containersAlong t ks = true → hasPath t ks = false → ks ≠ [] →
    ∃ t' r, gsRead t ks = .ok (t', r) ∧ t' ≠ t := by
  intro ks
  induction ks with
  | nil => intro t _ _ h; exact absurd rfl h
  | cons k rest ih =>
      cases rest with
      | nil =>
          intro t hc hp _
          cases hcur : ownOpt t (keyToString k) with
          | none =>
              obtain ⟨t1, ht1⟩ := setPropE_ok_of_container t hc (keyToString k) (JVal.vObj [])
              refine ⟨t1, JVal.vObj [], ?_, ?_⟩
              · simp only [gsRead, getPropE_container t hc, hcur, isUndefLike, if_true, ht1]
              · refine ne_of_ownOpt_ne t t1 (keyToString k) ?_
                rw [(setPropE_inv _ _ _ _ ht1).2.2, hcur]
                simp
          | some c =>
              rw [hasPath, hcur] at hp
              simp only [Bool.and_true, Bool.not_eq_false', hasPath] at hp
              obtain ⟨t1, ht1⟩ := setPropE_ok_of_container t hc (keyToString k) (JVal.vObj [])
              refine ⟨t1, JVal.vObj [], ?_, ?_⟩
              · simp only [gsRead, getPropE_container t hc, hcur, isUndefLike, hp, if_true, ht1]
              · refine ne_of_ownOpt_ne t t1 (keyToString k) ?_
                rw [(setPropE_inv _ _ _ _ ht1).2.2, hcur]
                have : c = JVal.vUndef := by cases c <;> first | rfl | exact Bool.noConfusion hp
                rw [this]
                simp
      | cons k2 ks2 =>
          intro t hca hp _
          simp only [containersAlong, Bool.and_eq_true] at hca
          obtain ⟨ht, hm⟩ := hca
          cases hcur : ownOpt t (keyToString k) with
          | none =>
              obtain ⟨t1, ht1⟩ := setPropE_ok_of_container t ht (keyToString k) (freshFor k2)
              obtain ⟨c', r, hc'⟩ := gsRead_ok_of_containersAlong (k2 :: ks2) (freshFor k2)
                (fresh_containersAlong k2 (k2 :: ks2))
              have hc'cont : isContainer c' = true :=
                gsRead_inv (k2 :: ks2) (freshFor k2) c' r (by cases k2 <;> rfl) hc'
              obtain ⟨t2, ht2⟩ :=
                setPropE_ok_of_container t1 (setPropE_inv _ _ _ _ ht1).2.1 (keyToString k) c'
              refine ⟨t2, r, ?_, ?_⟩
              · simp only [gsRead, getPropE_container t ht, hcur, isUndefLike, if_true,
                  ht1, hc', ht2]
              · refine ne_of_ownOpt_ne t t2 (keyToString k) ?_
                rw [(setPropE_inv _ _ _ _ ht2).2.2, hcur]
                simp
          | some c =>
              rw [hcur] at hm
              simp only [] at hm
              cases hu : isUndefV c with
              | true =>
                  obtain ⟨t1, ht1⟩ := setPropE_ok_of_container t ht (keyToString k) (freshFor k2)
                  obtain ⟨c', r, hc'⟩ := gsRead_ok_of_containersAlong (k2 :: ks2) (freshFor k2)
                    (fresh_containersAlong k2 (k2 :: ks2))
                  have hc'cont : isContainer c' = true :=
                    gsRead_inv (k2 :: ks2) (freshFor k2) c' r (by cases k2 <;> rfl) hc'
                  obtain ⟨t2, ht2⟩ :=
                    setPropE_ok_of_container t1 (setPropE_inv _ _ _ _ ht1).2.1 (keyToString k) c'
                  refine ⟨t2, r, ?_, ?_⟩
                  · simp only [gsRead, getPropE_container t ht, hcur, isUndefLike, hu, if_true,
                      ht1, hc', ht2]
                  · refine ne_of_ownOpt_ne t t2 (keyToString k) ?_
                    rw [(setPropE_inv _ _ _ _ ht2).2.2, hcur]
                    have : c = JVal.vUndef := by cases c <;> first | rfl | exact Bool.noConfusion hu
                    rw [this]
                    simp only [ne_eq, Option.some.injEq]
                    exact ne_vUndef_of_container c' hc'cont
              | false =>
                  rw [hu, Bool.false_or] at hm
                  rw [hasPath, hcur] at hp
                  simp only [hu, Bool.not_false, Bool.true_and] at hp
                  obtain ⟨c', r, hrd, hne⟩ := ih c hm hp (by simp)
                  have hccont : isContainer c = true :=
                    containersAlong_container (k2 :: ks2) c (by simp) hm
                  have hc'cont : isContainer c' = true :=
                    gsRead_inv (k2 :: ks2) c c' r hccont hrd
                  obtain ⟨t2, ht2⟩ := setPropE_ok_of_container t ht (keyToString k) c'
                  refine ⟨t2, r, ?_, ?_⟩
                  · simp only [gsRead, getPropE_container t ht, hcur, isUndefLike, hu,
                      Option.getD_some, hrd, hc'cont, if_true, ht2]
                    rw [if_neg Bool.false_ne_true]
                  · refine ne_of_ownOpt_ne t t2 (keyToString k) ?_
                    rw [(setPropE_inv _ _ _ _ ht2).2.2, hcur]
                    simp only [ne_eq, Option.some.injEq]
                    exact hne

/-! ## Claim C10 -/

/-- Claim C10 as frozen is false in its universal form: reading a missing
path is not always a silent mutation — when a scalar occupies a position
where a container is needed, the two-argument read itself throws (`{a:true}`
along `a.b`). -/
theorem c10_counterexample :
    getset_read (JVal.vObj [("a", JVal.vBool true)]) "a.b" = .error () := rfl

/-- Claim C10 (amended): when every pre-existing node along a non-empty
accessor path is a container and some segment is missing (or holds a stored
`undefined`), the two-argument read form succeeds and returns a tree
different from the one it read from: it has inserted a fresh container (an
array when the following segment is numeric, a mapping otherwise — see
`freshFor`) at each missing node. -/
theorem c10_read_mutates (t : JVal) (acc : String)
    (hnf : jsFalsy t = false) (hacc : acc ≠ "")
    (hca : containersAlong t (splitKeys acc) = true)
    (hmiss : hasPath t (splitKeys acc) = false) :
    ∃ t' r, getset_read t acc = .ok (t', r) ∧ t' ≠ t := by
  rw [getset_read, if_neg hacc]
  rw [show baseObj t = t by rw [baseObj, hnf]; rfl]
  exact gsRead_mutates (splitKeys acc) t hca hmiss (splitKeys_ne_nil acc)

/-- Witness for the amended C10: reading the absent `a.0` from `{}` inserts
an object under a fresh array (`{a:[{}]}` in effect) and returns a tree
different from `{}`. -/
theorem c10_read_mutates_witness :
    (∃ t' r, getset_read (JVal.vObj []) "a.0" = .ok (t', r) ∧ t' ≠ JVal.vObj []) ∧
    getset_read (JVal.vObj []) "a.0" =
      .ok (JVal.vObj [("a", JVal.vArr [("0", JVal.vObj [])])], JVal.vObj []) :=
  ⟨c10_read_mutates (JVal.vObj []) "a.0" rfl (by decide) rfl rfl, rfl⟩

/-! ## Claim C6 -/

/-- Claim C6: the upward search probes `<dir>/<filename>`, recording every
probe, and moves to the parent when the probe misses (not existing, or
already loaded); it terminates at the filesystem root — the directory whose
parent is itself — and returns "not found" rather than recursing forever or
raising: when no directory in the parent chain yields a hit, the result is
`none` and the diagnostics trail is exactly the root-bound chain of probes. -/
theorem c6_upward_search_terminates (fs : List (JPath × String)) (loaded : List JPath)
    (rel : String) : ∀ (start : List String) (diag : List JPath),
    (∀ d ∈ upChain start,
      ¬(fexists fs ⟨true, d, rel⟩ = true ∧ pathMem (⟨true, d, rel⟩ : JPath) loaded = false)) →
    findUp fs loaded rel start diag =
      (none, diag ++ (upChain start).map (fun d => (⟨true, d, rel⟩ : JPath))) := by
  intro start
  induction start with
  | nil =>
      intro diag h
      have h0 := h [] (by simp [upChain])
      have hcond : (fexists fs ⟨true, [], rel⟩ && !pathMem (⟨true, [], rel⟩ : JPath) loaded)
          = false := by
        cases hf : fexists fs ⟨true, [], rel⟩ <;>
          cases hp : pathMem (⟨true, [], rel⟩ : JPath) loaded <;> simp_all
      rw [findUp]
      simp only [hcond]
      rw [if_neg Bool.false_ne_true]
      simp [upChain]
  | cons s ss ih =>
      intro diag h
      have h0 := h (s :: ss) (by rw [upChain]; exact List.mem_cons_self _ _)
      have hcond : (fexists fs ⟨true, s :: ss, rel⟩ &&
          !pathMem (⟨true, s :: ss, rel⟩ : JPath) loaded) = false := by
        cases hf : fexists fs ⟨true, s :: ss, rel⟩ <;>
          cases hp : pathMem (⟨true, s :: ss, rel⟩ : JPath) loaded <;> simp_all
      rw [findUp]
      simp only [hcond]
      rw [if_neg Bool.false_ne_true]
      have hsh : ∀ d ∈ upChain ss,
          ¬(fexists fs ⟨true, d, rel⟩ = true ∧
            pathMem (⟨true, d, rel⟩ : JPath) loaded = false) :=
        fun d hd => h d (by rw [upChain]; exact List.mem_cons_of_mem _ hd)
      rw [upChain, List.map_cons]
      exact (ih (diag ++ [(⟨true, s :: ss, rel⟩ : JPath)]) hsh).trans
        (by simp [List.append_assoc])

/-- Witness for C6: searching for `.apprc` from `/a/b` over an empty
filesystem probes `/a/b/.apprc`, `/a/.apprc`, `/.apprc` and returns
not-found. -/
theorem c6_upward_search_terminates_witness :
    findUp [] [] ".apprc" ["b", "a"] [] =
      (none, [] ++ (upChain ["b", "a"]).map (fun d => (⟨true, d, ".apprc"⟩ : JPath))) ∧
    (upChain ["b", "a"]).map (fun d => (⟨true, d, ".apprc"⟩ : JPath)) =
      [⟨true, ["b", "a"], ".apprc"⟩, ⟨true, ["a"], ".apprc"⟩, ⟨true, [], ".apprc"⟩] :=
  ⟨c6_upward_search_terminates [] [] ".apprc" ["b", "a"] [] (by decide), rfl⟩

/-! ## Claim C7 -/

theorem except_bind_pure (x : Except Unit JVal) : (x >>= pure) = x := by
  cases x <;> rfl

/-- Claim C7 as frozen is false: for a variable named exactly like the
namespace, the extractor does not treat the entire remainder after the first
`=` as the value.  `value.split('=')` splits on every `=` and the
destructuring keeps only the second field: `APP=k=v1=v2` stores `"v1"`,
not `"v1=v2"`. -/
theorem c7_counterexample :
    parse_env "app" "_" [("APP", JVal.vStr "k=v1=v2")] =
      .ok (JVal.vObj [("k", JVal.vStr "v1")]) ∧
    "v1" ≠ "v1=v2" := ⟨rfl, by decide⟩

/-- Claim C7 (amended): for an environment variable whose lower-cased name
equals the namespace exactly, the trimmed value is split on every `=`; the
first field is the delimited accessor path and the second field alone is the
raw value (anything after a second `=` is discarded), written into a fresh
tree through the path accessor.  `APP=demo.host=1.2.3.4` still yields
`{demo:{host:"1.2.3.4"}}` because its value holds a single `=`. -/
theorem c7_env_single_value_form (kn d K raw : String)
    (hK : jsLower K = kn) (p0 p1 : List Char) (rest : List (List Char))
    (hsplit : splitChar '=' (trimL raw.data) = p0 :: p1 :: rest) :
    parse_env kn d [(K, JVal.vStr raw)] = envApply d (JVal.vObj []) p0 (some p1) := by
  show ((envStep kn d (JVal.vObj []) (K, JVal.vStr raw)) >>=
      fun b => List.foldlM (envStep kn d) b []) = _
  simp only [List.foldlM_nil]
  rw [show envStep kn d (JVal.vObj []) (K, JVal.vStr raw) =
      envApply d (JVal.vObj []) p0 (some p1) from ?_]
  · exact except_bind_pure _
  · simp only [envStep, hK, if_pos rfl, hsplit, List.headD_cons]
    rfl

/-- Witness for the amended C7 with `APP=demo.host=1.2.3.4`. -/
theorem c7_env_single_value_form_witness :
    jsLower "APP" = "app" ∧
    splitChar '=' (trimL "demo.host=1.2.3.4".data) =
      "demo.host".data :: "1.2.3.4".data :: [] ∧
    parse_env "app" "_" [("APP", JVal.vStr "demo.host=1.2.3.4")] =
      envApply "_" (JVal.vObj []) "demo.host".data (some "1.2.3.4".data) ∧
    parse_env "app" "_" [("APP", JVal.vStr "demo.host=1.2.3.4")] =
      .ok (JVal.vObj [("demo", JVal.vObj [("host", JVal.vStr "1.2.3.4")])]) :=
  ⟨rfl, rfl,
    c7_env_single_value_form "app" "_" "APP" "demo.host=1.2.3.4" rfl
      "demo.host".data "1.2.3.4".data [] rfl,
    rfl⟩

/-! ## Claim C8 -/

/-- Claim C8 as frozen is false: the namespace key is not the name with
*every* hyphen replaced.  `appName.replace( '-', sub )` uses a plain string
pattern, which JS replaces only at the first occurrence: `my-app-name`
becomes `my_app-name`, not `my_app_name`. -/
theorem c8_counterexample :
    keyAppNameOf "my-app-name" "_" = "my_app-name" ∧
    "my_app-name" ≠ "my_app_name" := ⟨rfl, by decide⟩

/-- Claim C8 (amended): the engine's namespace key is the lower-casing of
the application name with only its first hyphen replaced by the configured
substitute, computed once in the constructor; it is untouched by `set` (and
`get` computes no state), so it stays fixed for the lifetime of the
instance. -/
theorem c8_key_app_name (appName delim sub : String) (exts : List String)
    (defaultsArg : JVal) (envMap : List (String × JVal)) (cli : JVal)
    (fs : List (JPath × String)) (P : Parsers) (isWin : Bool)
    (home : Option (List String)) (cwd : List String) (c : Configuration)
    (h : mkConfiguration appName delim sub exts defaultsArg envMap cli fs P isWin
      home cwd = .ok c) :
    c.keyAppName = keyAppNameOf appName sub ∧ c.appName = appName ∧
    ∀ (k : String) (v : JVal) (c' : Configuration),
      Configuration.set c k v = .ok c' →
      c'.keyAppName = c.keyAppName ∧ c'.appName = c.appName := by
  simp only [mkConfiguration] at h
  split at h
  · exact Except.noConfusion h
  · split at h
    · exact Except.noConfusion h
    · simp only [Except.ok.injEq] at h
      subst h
      refine ⟨rfl, rfl, ?_⟩
      intro k v c' hs
      simp only [Configuration.set] at hs
      split at hs
      · exact Except.noConfusion hs
      · simp only [Except.ok.injEq] at hs
        subst hs
        exact ⟨rfl, rfl⟩

/-- Witness for the amended C8: constructing with app name `my-app` over an
empty filesystem and environment, then calling `set`. -/
theorem c8_key_app_name_witness :
    ∃ c : Configuration,
      mkConfiguration "my-app" "_" "_" defaultExtensions (JVal.vObj []) [] (JVal.vObj [])
        [] parsersNone false none ["w"] = .ok c ∧
      c.keyAppName = keyAppNameOf "my-app" "_" ∧
      c.keyAppName = "my_app" := by
  cases hc : mkConfiguration "my-app" "_" "_" defaultExtensions (JVal.vObj []) []
      (JVal.vObj []) [] parsersNone false none ["w"] with
  | error e => exact Except.noConfusion hc
  | ok c =>
      refine ⟨c, rfl, ?_, ?_⟩
      · exact (c8_key_app_name "my-app" "_" "_" defaultExtensions (JVal.vObj []) []
          (JVal.vObj []) [] parsersNone false none ["w"] c hc).1
      · rw [(c8_key_app_name "my-app" "_" "_" defaultExtensions (JVal.vObj []) []
          (JVal.vObj []) [] parsersNone false none ["w"] c hc).1]
        rfl

/-! ## Claim C9 -/

/-- Claim C9 as frozen is false: the sniff regex `/^[\s\n]*\{/m` carries the
multiline flag, so it anchors at the start of *every* line.  The extensionless
file `config` with content `"a=1\n{"` has a trimmed text beginning with `a`,
yet the second line starts with an opening brace, so the content is treated
as JSON — not INI as "exactly when the trimmed text begins with a brace"
would require. -/
theorem c9_counterexample :
    chooseFormat "config" "a=1\n\x7b" = CFormat.json ∧
    wsStarBrace "a=1\n\x7b".data = false := ⟨rfl, rfl⟩

/-- Claim C9 (amended): for a filename without a recognized extension, the
content is treated as JSON exactly when the multiline sniff matches — i.e.
when the text at its start, or immediately after some newline, consists of
optional whitespace followed by `\x7b` — and as INI otherwise.  (Content
whose trimmed text begins with `\x7b` is the `wsStarBrace`-at-start special
case of this rule.) -/
theorem c9_sniff_rule (filename contents : String)
    (h : extFormat filename = none) :
    chooseFormat filename contents =
      (if sniffJson contents = true then CFormat.json else CFormat.ini) ∧
    (wsStarBrace contents.data = true → chooseFormat filename contents = CFormat.json) := by
  constructor
  · rw [chooseFormat, h]
  · intro hws
    rw [chooseFormat, h, if_pos (by rw [sniffJson, hws, Bool.true_or])]

/-- Witness for the amended C9: `config` with INI-looking content sniffs to
INI, and with brace-led content sniffs to JSON. -/
theorem c9_sniff_rule_witness :
    extFormat "config" = none ∧
    chooseFormat "config" "a=1" =
      (if sniffJson "a=1" = true then CFormat.json else CFormat.ini) ∧
    chooseFormat "config" "a=1" = CFormat.ini ∧
    chooseFormat "config" "  \x7b\"a\":1\x7d" = CFormat.json :=
  ⟨rfl, (c9_sniff_rule "config" "a=1" rfl).1, rfl,
    (c9_sniff_rule "config" "  \x7b\"a\":1\x7d" rfl).2 rfl⟩
